import Mathlib

/-!
Verification of the service-metrics polling agent (`service-metrics.go`).

The development shallowly embeds:
* the JSON decoding performed by `json.NewDecoder(bytes.NewReader(out)).Decode(&parsedMetrics)`
  — a single-value JSON parse (trailing bytes left unconsumed) followed by Go's
  lenient unmarshal into `metrics.Metrics` (`[]Metric` with tags `key`/`value`/`unit`);
* the per-cycle `process` function as a function from the command invocation's
  outcome to the sequence of observable events (log records and sink calls) plus
  an optional `os.Exit` status;
* the scheduler loop of `main` (run once immediately, then once per interval).

JSON numbers are kept exact (mantissa × 10^exponent, realised as `Rat`), so the
float64 conversion is modelled as the identity on the parsed numeral; field-name
matching is modelled with ASCII case folding (Go uses `EqualFold`).
-/

/-- A parsed JSON value, as produced by Go's scanner for one top-level value.
Numbers are kept as `mantissa × 10^exponent`. -/
inductive Json where
  | null
  | bool (b : Bool)
  | num (mantissa exponent : Int)
  | str (s : String)
  | arr (elems : List Json)
  | obj (members : List (String × Json))

def Json.isNum : Json → Bool
  | .num _ _ => true
  | _ => false

def Json.isArr : Json → Bool
  | .arr _ => true
  | _ => false

/-- Modelled from the spec: the `metrics.Metric` record of the repository's
`metrics` package (not under `src/`): fields `key` (string), `value` (number,
kept exact as `Rat`), `unit` (string), with JSON tags `key`, `value`, `unit`
(visible in the integration test's payloads and §3/§6 of the spec). -/
structure Metric where
  key : String
  value : Rat
  unit : String
deriving Repr, DecidableEq

/-- JSON whitespace, as in Go's `encoding/json` `isSpace`: space, tab,
carriage return, newline. -/
def isWs (c : Char) : Bool :=
  c.toNat == 32 || c.toNat == 9 || c.toNat == 13 || c.toNat == 10

/-- A decimal digit (code points 48-57). -/
def isDigit (c : Char) : Bool := 48 ≤ c.toNat && c.toNat ≤ 57

def skipWs : List Char → List Char
  | [] => []
  | c :: rest => if isWs c then skipWs rest else c :: rest

/-- Maximal run of decimal digits, and the rest. -/
def takeDigits : List Char → List Char × List Char
  | [] => ([], [])
  | c :: rest =>
    if isDigit c then
      match takeDigits rest with
      | (ds, tail) => (c :: ds, tail)
    else ([], c :: rest)

/-- The number denoted by a run of decimal digits. -/
def digitsToNat (ds : List Char) : Nat :=
  ds.foldl (fun acc c => 10 * acc + (c.toNat - 48)) 0

/-- The value of one hexadecimal digit (`0-9`, `a-f`, `A-F`). -/
def hexVal (c : Char) : Option Nat :=
  let n := c.toNat
  if 48 ≤ n ∧ n ≤ 57 then some (n - 48)
  else if 97 ≤ n ∧ n ≤ 102 then some (n - 87)
  else if 65 ≤ n ∧ n ≤ 70 then some (n - 55)
  else none

def hex4 (a b c d : Char) : Option Nat :=
  match hexVal a, hexVal b, hexVal c, hexVal d with
  | some va, some vb, some vc, some vd => some (((va * 16 + vb) * 16 + vc) * 16 + vd)
  | _, _, _, _ => none

/-- Single-character escapes accepted after a backslash in a JSON string
(Go `unquoteBytes`). -/
def unescape : Char → Option Char
  | '"' => some '"'
  | '\\' => some '\\'
  | '/' => some '/'
  | 'b' => some (Char.ofNat 8)
  | 'f' => some (Char.ofNat 12)
  | 'n' => some '\n'
  | 'r' => some '\r'
  | 't' => some '\t'
  | _ => none

def isHighSurrogate (n : Nat) : Bool := 0xD800 ≤ n && n ≤ 0xDBFF
def isLowSurrogate (n : Nat) : Bool := 0xDC00 ≤ n && n ≤ 0xDFFF
def isSurrogate (n : Nat) : Bool := isHighSurrogate n || isLowSurrogate n

/-- U+FFFD, the replacement character Go substitutes for invalid surrogates. -/
def replacementChar : Char := Char.ofNat 0xFFFD

def combineSurrogates (hi lo : Nat) : Char :=
  Char.ofNat (65536 + 1024 * (hi - 55296) + (lo - 56320))

/-- The body of a JSON string after the opening quote: Go's scanner validation
(escapes, no raw control characters) fused with `unquoteBytes` (escape
resolution, surrogate-pair combination, U+FFFD for invalid surrogates).
`fuel` only forces totality; callers supply more than the input's length. -/
def parseStrAux (fuel : Nat) (acc : List Char) (cs : List Char) :
    Except String (String × List Char) :=
  match fuel with
  | 0 => .error "out of fuel in string"
  | fuel + 1 =>
    match cs with
    | '"' :: rest => .ok (String.mk acc.reverse, rest)
    | '\\' :: 'u' :: a :: b :: c :: d :: rest =>
      (match hex4 a b c d with
       | none => .error "invalid unicode escape in string"
       | some n =>
         if isSurrogate n then
           match rest with
           | '\\' :: 'u' :: e :: f :: g :: h :: rest2 =>
             (match hex4 e f g h with
              | some n2 =>
                if isHighSurrogate n && isLowSurrogate n2 then
                  parseStrAux fuel (combineSurrogates n n2 :: acc) rest2
                else
                  parseStrAux fuel (replacementChar :: acc)
                    ('\\' :: 'u' :: e :: f :: g :: h :: rest2)
              | none =>
                parseStrAux fuel (replacementChar :: acc)
                  ('\\' :: 'u' :: e :: f :: g :: h :: rest2))
           | other => parseStrAux fuel (replacementChar :: acc) other
         else
           parseStrAux fuel (Char.ofNat n :: acc) rest)
    | '\\' :: e :: rest =>
      (match unescape e with
       | some ch => parseStrAux fuel (ch :: acc) rest
       | none => .error "invalid escape in string")
    | c :: rest =>
      if c.toNat < 32 then .error "control character in string"
      else parseStrAux fuel (c :: acc) rest
    | [] => .error "unexpected end of input in string"

/-- The integer part of a JSON number: `0`, or a nonzero digit followed by more
digits (leading zeros are not absorbed, as in Go's scanner: after `0` the
numeral ends). -/
def parseIntPart : List Char → Except String (List Char × List Char)
  | '0' :: r => .ok (['0'], r)
  | c :: r =>
    if isDigit c then
      let (ds, r1) := takeDigits r
      .ok (c :: ds, r1)
    else .error "invalid character in number"
  | [] => .error "unexpected end of input in number"

/-- The optional fraction part of a JSON number: a dot demands at least one
digit; with no dot nothing is consumed. -/
def parseFrac : List Char → Except String (List Char × List Char)
  | '.' :: r =>
    (match takeDigits r with
     | (fs, r1) =>
       if fs.isEmpty then .error "invalid character after decimal point"
       else .ok (fs, r1))
  | cs => .ok ([], cs)

/-- The optional sign opening an exponent: `+`/`-` consumed, anything else
left in place. -/
def parseSign : List Char → Int × List Char
  | '+' :: r2 => (1, r2)
  | '-' :: r2 => (-1, r2)
  | r => (1, r)

/-- The optional exponent part of a JSON number: `e`/`E`, an optional sign and
at least one digit; with no `e` nothing is consumed. -/
def parseExp : List Char → Except String (Int × List Char)
  | 'e' :: r | 'E' :: r =>
    (match parseSign r with
     | (sgn, r1) =>
       match takeDigits r1 with
       | (es, r2) =>
         if es.isEmpty then .error "invalid character in exponent"
         else .ok (sgn * (digitsToNat es : Int), r2))
  | cs => .ok (0, cs)

/-- The optional leading minus sign of a JSON number. -/
def parseNeg : List Char → Bool × List Char
  | '-' :: r => (true, r)
  | cs => (false, cs)

/-- A JSON number per the RFC 8259 grammar Go's scanner enforces:
`-? int frac? exp?`; returns mantissa and decimal exponent. -/
def parseNum (cs : List Char) : Except String ((Int × Int) × List Char) :=
  match parseNeg cs with
  | (neg, cs1) =>
    match parseIntPart cs1 with
    | .error e => .error e
    | .ok (ds, cs2) =>
      match parseFrac cs2 with
      | .error e => .error e
      | .ok (fs, cs3) =>
        match parseExp cs3 with
        | .error e => .error e
        | .ok (ex, cs4) =>
          .ok (((if neg then -1 else 1) * (digitsToNat (ds ++ fs) : Int),
                ex - (fs.length : Int)), cs4)

mutual

/-- Dispatch on the first character of a JSON value (whitespace already
skipped): a literal, string, number, array or object; the remainder after the
value is returned unconsumed. `fuel` bounds nesting; callers supply more than
enough. -/
def parseValCore (fuel : Nat) (cs : List Char) : Except String (Json × List Char) :=
  match fuel with
  | 0 => .error "value nested too deep"
  | fuel + 1 =>
    match cs with
    | 'n' :: 'u' :: 'l' :: 'l' :: more => Except.ok (Json.null, more)
    | 't' :: 'r' :: 'u' :: 'e' :: more => Except.ok (Json.bool true, more)
    | 'f' :: 'a' :: 'l' :: 's' :: 'e' :: more => Except.ok (Json.bool false, more)
    | '"' :: r =>
      match parseStrAux (r.length + 1) [] r with
      | .error e => .error e
      | .ok (s, r1) => .ok (.str s, r1)
    | '[' :: r =>
      (match skipWs r with
       | ']' :: r1 => .ok (.arr [], r1)
       | r1 =>
         match parseElems fuel r1 with
         | .error e => .error e
         | .ok (es, r2) => .ok (.arr es, r2))
    | '\x7b' :: r =>
      (match skipWs r with
       | '\x7d' :: r1 => .ok (.obj [], r1)
       | r1 =>
         match parseMembers fuel r1 with
         | .error e => .error e
         | .ok (ms, r2) => .ok (.obj ms, r2))
    | c :: rest =>
      if c = '-' || isDigit c then
        match parseNum (c :: rest) with
        | .error e => .error e
        | .ok ((m, ex), r1) => .ok (.num m ex, r1)
      else .error "unexpected character at start of value"
    | [] => .error "unexpected end of input"

/-- One or more comma-separated array elements followed by `]` (the empty array
is handled at the `[` site). -/
def parseElems (fuel : Nat) (cs : List Char) : Except String (List Json × List Char) :=
  match fuel with
  | 0 => .error "value nested too deep"
  | fuel + 1 =>
    match parseValCore fuel (skipWs cs) with
    | .error e => .error e
    | .ok (v, r) =>
      match skipWs r with
      | ',' :: r1 =>
        (match parseElems fuel r1 with
         | .error e => .error e
         | .ok (vs, r2) => .ok (v :: vs, r2))
      | ']' :: r1 => .ok ([v], r1)
      | _ => .error "expected comma or closing bracket after array element"

/-- One or more comma-separated object members followed by the closing brace
(the empty object is handled at the opening-brace site). -/
def parseMembers (fuel : Nat) (cs : List Char) :
    Except String (List (String × Json) × List Char) :=
  match fuel with
  | 0 => .error "value nested too deep"
  | fuel + 1 =>
    match skipWs cs with
    | '"' :: r =>
      (match parseStrAux (r.length + 1) [] r with
       | .error e => .error e
       | .ok (name, r1) =>
         match skipWs r1 with
         | ':' :: r2 =>
           (match parseValCore fuel (skipWs r2) with
            | .error e => .error e
            | .ok (v, r3) =>
              match skipWs r3 with
              | ',' :: r4 =>
                (match parseMembers fuel r4 with
                 | .error e => .error e
                 | .ok (ms, r5) => .ok ((name, v) :: ms, r5))
              | '\x7d' :: r4 => .ok ([(name, v)], r4)
              | _ => .error "expected comma or closing brace after object member")
         | _ => .error "expected colon after object key")
    | _ => .error "expected string key in object"

end

/-- One JSON value (Go's `Decoder.readValue`): skip leading whitespace, then
dispatch on the first character. -/
def parseVal (fuel : Nat) (cs : List Char) : Except String (Json × List Char) :=
  parseValCore fuel (skipWs cs)

def pow10 : Nat → Nat
  | 0 => 1
  | n + 1 => 10 * pow10 n

/-- The exact numeric value of a parsed JSON numeral (`mantissa × 10^exponent`);
Go converts this numeral to a float64, modelled here as the exact value. -/
def numToRat (m ex : Int) : Rat :=
  if 0 ≤ ex then mkRat (m * (pow10 ex.toNat : Int)) 1
  else mkRat m (pow10 (-ex).toNat)

def asciiLower (c : Char) : Char :=
  if 'A' ≤ c && c ≤ 'Z' then Char.ofNat (c.toNat + 32) else c

/-- Go matches JSON object keys to struct fields case-insensitively
(`EqualFold`, modelled with ASCII folding). -/
def foldEq (a b : String) : Bool :=
  a.data.map asciiLower == b.data.map asciiLower

inductive FieldId where
  | key
  | value
  | unit
deriving Repr, DecidableEq

/-- Which `Metric` struct field a JSON object key selects (by tag, with the
case-insensitive fallback); `none` for an unknown field, which Go ignores. -/
def fieldOf (name : String) : Option FieldId :=
  if foldEq name "key" then some .key
  else if foldEq name "value" then some .value
  else if foldEq name "unit" then some .unit
  else none

/-- Assign one decoded JSON object member to the `Metric` under construction:
unknown names are ignored, `null` leaves the field untouched, a wrong type is
an unmarshal error (Go's `UnmarshalTypeError`, fatal to the whole decode). -/
def setField (m : Metric) (name : String) (v : Json) : Except String Metric :=
  match fieldOf name with
  | none => .ok m
  | some .key =>
    match v with
    | .str s => .ok { m with key := s }
    | .null => .ok m
    | _ => .error "cannot unmarshal value into field key of type string"
  | some .value =>
    match v with
    | .num mant ex => .ok { m with value := numToRat mant ex }
    | .null => .ok m
    | _ => .error "cannot unmarshal value into field value of type float64"
  | some .unit =>
    match v with
    | .str s => .ok { m with unit := s }
    | .null => .ok m
    | _ => .error "cannot unmarshal value into field unit of type string"

/-- Fold the members of a JSON object into a `Metric`, starting from the zero
value; later duplicates overwrite earlier ones, as in Go. -/
def unmarshalFields (m : Metric) : List (String × Json) → Except String Metric
  | [] => .ok m
  | (name, v) :: fs =>
    match setField m name v with
    | .error e => .error e
    | .ok m1 => unmarshalFields m1 fs

/-- Unmarshal one array element into a `Metric`: an object is folded field by
field from the zero value, `null` is a no-op (zero value), anything else is a
type error. -/
def unmarshalMetric : Json → Except String Metric
  | .obj fs => unmarshalFields ⟨"", 0, ""⟩ fs
  | .null => .ok ⟨"", 0, ""⟩
  | _ => .error "cannot unmarshal value into metrics.Metric"

def unmarshalList : List Json → Except String (List Metric)
  | [] => .ok []
  | v :: vs =>
    match unmarshalMetric v with
    | .error e => .error e
    | .ok m =>
      match unmarshalList vs with
      | .error e => .error e
      | .ok ms => .ok (m :: ms)

/-- Unmarshal the decoded top-level value into `metrics.Metrics` (`[]Metric`):
an array element-wise, `null` leaves the nil slice (no metrics), anything else
is a type error. -/
def unmarshalMetrics : Json → Except String (List Metric)
  | .arr es => unmarshalList es
  | .null => .ok []
  | _ => .error "cannot unmarshal value into metrics.Metrics"

/-- `json.NewDecoder(bytes.NewReader(out)).Decode(&parsedMetrics)`: read ONE
JSON value from the front of the output (anything after it is left for a next
`Decode` that never happens), then unmarshal it into `metrics.Metrics`. -/
def decodeMetrics (s : String) : Except String (List Metric) :=
  match parseVal (s.length + 1) s.data with
  | .error e => .error e
  | .ok (v, _) => unmarshalMetrics v

/-- The outcome of `exec.Command(metricsCmd, metricsCmdArgs...).CombinedOutput()`:
either the command could not be started at all (`err` is not an
`*exec.ExitError`), or it started and exited with the given status (status `0`
means `err == nil`), with the combined stdout+stderr captured. -/
inductive ExecResult where
  | startFailure
  | exited (status : Int) (output : String)
deriving Repr, DecidableEq

/-- One observable step of a cycle: a log record emitted through the lager
logger, or a call into the dropsonde sink (`dmetrics.SendValue`). -/
inductive Event where
  | starting
  | launchFailed
  | notReady (output : String)
  | cmdFailed (output : String)
  | done
  | parseFailed (output : String) (errMsg : String)
  | sentValue (key : String) (value : Rat) (unit : String)
  | sendFailed (key : String) (value : Rat) (unit : String)
deriving Repr, DecidableEq

/-- Which events are `logger.Error` records. (`sentValue` is the sink call
itself, not a log record.) -/
def Event.isErrorLog : Event → Bool
  | .launchFailed => true
  | .cmdFailed _ => true
  | .parseFailed _ _ => true
  | .sendFailed _ _ _ => true
  | _ => false

/-- The forwarding loop over the parsed payload: one `SendValue(m.Key, m.Value,
m.Unit)` per metric, in order; a failing call (the sink's answer is modelled by
the oracle `sf` on the call's position) is logged and the loop continues. -/
def sendLoop (sf : Nat → Bool) : Nat → List Metric → List Event
  | _, [] => []
  | i, m :: rest =>
    if sf i then
      .sentValue m.key m.value m.unit :: .sendFailed m.key m.value m.unit ::
        sendLoop sf (i + 1) rest
    else
      .sentValue m.key m.value m.unit :: sendLoop sf (i + 1) rest

/-- The cycle processor `process(logger)`: the list of events of the cycle in
order, together with `some c` when the cycle calls `os.Exit(c)` (ending the
whole process) and `none` when it returns to the scheduler loop. -/
def process (sf : Nat → Bool) : ExecResult → List Event × Option Nat
  | .startFailure => ([.starting, .launchFailed], some 1)
  | .exited status out =>
    if status = 0 then
      match decodeMetrics out with
      | .error e => ([.starting, .done, .parseFailed out e], some 1)
      | .ok ms => ([.starting, .done] ++ sendLoop sf 0 ms, none)
    else if status = 10 then
      ([.starting, .notReady out], none)
    else
      ([.starting, .cmdFailed out], some 0)

/-- The `(key, value, unit)` arguments of the sink-forwarding calls of a trace,
in order. -/
def sendCalls (tr : List Event) : List (String × Rat × String) :=
  tr.filterMap fun e =>
    match e with
    | .sentValue k v u => some (k, v, u)
    | _ => none

/-- An environment for the scheduler loop of `main`: the configured interval,
and for the `i`-th cycle its wall-clock duration, the command invocation's
outcome and the sink's answers. -/
structure SchedEnv where
  interval : Nat
  dur : Nat → Nat
  res : Nat → ExecResult
  sf : Nat → Nat → Bool

/-- Whether the `i`-th cycle, were it reached, would call `os.Exit`. -/
def cycleTerm (E : SchedEnv) (i : Nat) : Bool :=
  (process (E.sf i) (E.res i)).2.isSome

/-- Start time of the `i`-th cycle: `process(logger)` runs at startup, and each
later cycle starts after the previous one finished and `time.After(interval)`
fired. -/
def startTime (E : SchedEnv) : Nat → Nat
  | 0 => 0
  | i + 1 => startTime E i + E.dur i + E.interval

/-- Completion time of the `i`-th cycle. -/
def endTime (E : SchedEnv) (i : Nat) : Nat :=
  startTime E i + E.dur i

/-- Whether the loop reaches the `i`-th cycle: it does exactly when no earlier
cycle exited the process. -/
def cycleRuns (E : SchedEnv) (i : Nat) : Bool :=
  (List.range i).all fun j => !cycleTerm E j

/-- The sink calls made by the forwarding loop are exactly the metrics of the
payload, in order, whatever the sink answers. -/
theorem sendCalls_sendLoop (sf : Nat → Bool) :
    ∀ (ms : List Metric) (i : Nat),
      sendCalls (sendLoop sf i ms) = ms.map fun m => (m.key, m.value, m.unit)
  | [], _ => rfl
  | m :: rest, i => by
    by_cases h : sf i <;>
      simp [sendLoop, sendCalls, h, List.filterMap_cons] <;>
      simpa [sendCalls] using sendCalls_sendLoop sf rest (i + 1)

/-- A failing sink call is followed by its error log, at every position. -/
theorem sendLoop_failure_logged (sf : Nat → Bool) :
    ∀ (ms : List Metric) (i k : Nat) (hk : k < ms.length), sf (i + k) = true →
      Event.sendFailed (ms.get ⟨k, hk⟩).key (ms.get ⟨k, hk⟩).value (ms.get ⟨k, hk⟩).unit
        ∈ sendLoop sf i ms
  | m :: rest, i, 0, _, hsf => by
    simp only [Nat.add_zero] at hsf
    simp [sendLoop, hsf]
  | m :: rest, i, k + 1, hk, hsf => by
    have hk' : k < rest.length := by simpa using hk
    have hsf' : sf (i + 1 + k) = true := by
      have e : i + 1 + k = i + (k + 1) := by omega
      rw [e]; exact hsf
    have ih := sendLoop_failure_logged sf rest (i + 1) k hk' hsf'
    have hget : (m :: rest).get ⟨k + 1, hk⟩ = rest.get ⟨k, hk'⟩ := rfl
    rw [hget]
    simp only [sendLoop]
    split
    · exact List.mem_cons_of_mem _ (List.mem_cons_of_mem _ ih)
    · exact List.mem_cons_of_mem _ ih

/-- Claim C1: for a command that exits 0 with output decoding as a well-formed
payload array, the cycle makes exactly one sink-forwarding call per array
element, in array order, the i-th call's `(key, value, unit)` arguments being
the i-th decoded record's fields; duplicates are forwarded as-is. -/
theorem forward_matches_payload (out : String) (ms : List Metric) (sf : Nat → Bool)
    (h : decodeMetrics out = .ok ms) :
    sendCalls (process sf (.exited 0 out)).1 = ms.map fun m => (m.key, m.value, m.unit) := by
  simp [process, h, sendCalls, List.filterMap_cons]
  simpa [sendCalls] using sendCalls_sendLoop sf ms 0

/-- Witness for C1, the spec's end-to-end example: two metrics forwarded as
`("loadMetric", 4, "Load")` then `("temperatureMetric", 99, "Temperature")`. -/
theorem forward_matches_payload_witness :
    sendCalls (process (fun _ => false) (.exited 0 "[\x7b\x22key\x22:\x22loadMetric\x22,\x22value\x22:4,\x22unit\x22:\x22Load\x22\x7d,\x7b\x22key\x22:\x22temperatureMetric\x22,\x22value\x22:99,\x22unit\x22:\x22Temperature\x22\x7d]")).1
      = [("loadMetric", (4 : Rat), "Load"), ("temperatureMetric", (99 : Rat), "Temperature")] :=
  forward_matches_payload _
    [⟨"loadMetric", 4, "Load"⟩, ⟨"temperatureMetric", 99, "Temperature"⟩] _ (by rfl)

/-- Claim C2: a command that starts and exits with a non-zero status other than
10 makes the cycle log exactly one error event (carrying the captured output)
and terminate the process with exit status 0; no parse is attempted and no
metric is forwarded. -/
theorem nonzero_exit_graceful_stop (status : Int) (out : String) (sf : Nat → Bool)
    (h0 : status ≠ 0) (h10 : status ≠ 10) :
    process sf (.exited status out) = ([.starting, .cmdFailed out], some 0)
    ∧ (process sf (.exited status out)).1.filter Event.isErrorLog = [.cmdFailed out]
    ∧ (∀ k v u, Event.sentValue k v u ∉ (process sf (.exited status out)).1)
    ∧ (∀ o e, Event.parseFailed o e ∉ (process sf (.exited status out)).1) := by
  have hp : process sf (.exited status out) = ([.starting, .cmdFailed out], some 0) := by
    simp [process, h0, h10]
  refine ⟨hp, ?_, ?_, ?_⟩ <;> simp [hp, Event.isErrorLog]

/-- Witness for C2 at exit status 1. -/
theorem nonzero_exit_graceful_stop_witness :
    process (fun _ => false) (.exited 1 "failed to obtain metrics")
      = ([.starting, .cmdFailed "failed to obtain metrics"], some 0) :=
  (nonzero_exit_graceful_stop 1 "failed to obtain metrics" (fun _ => false)
    (by decide) (by decide)).1

/-- Claim C3: a command that exits with status 10 exactly makes the cycle log
one informational not-yet-ready event carrying the captured output and return:
nothing is parsed, nothing is forwarded, no error is logged, and the process
does not terminate — whatever the output contains. -/
theorem sentinel_ten_not_ready (out : String) (sf : Nat → Bool) :
    process sf (.exited 10 out) = ([.starting, .notReady out], none)
    ∧ (process sf (.exited 10 out)).1.filter Event.isErrorLog = []
    ∧ (∀ k v u, Event.sentValue k v u ∉ (process sf (.exited 10 out)).1)
    ∧ (∀ o e, Event.parseFailed o e ∉ (process sf (.exited 10 out)).1) := by
  have hp : process sf (.exited 10 out) = ([.starting, .notReady out], none) := by
    simp [process]
  refine ⟨hp, ?_, ?_, ?_⟩ <;> simp [hp, Event.isErrorLog]

/-- Claim C4: when the command cannot be started at all, the cycle logs an
error and terminates the process with a non-zero exit status, without ever
attempting a parse or forwarding a metric. -/
theorem launch_failure_fatal (sf : Nat → Bool) :
    process sf .startFailure = ([.starting, .launchFailed], some 1)
    ∧ (∀ c, (process sf .startFailure).2 = some c → c ≠ 0)
    ∧ (∀ k v u, Event.sentValue k v u ∉ (process sf .startFailure).1)
    ∧ (∀ o e, Event.parseFailed o e ∉ (process sf .startFailure).1) := by
  refine ⟨rfl, ?_, ?_, ?_⟩ <;> simp [process]

/-- Claim C5: a command that exits 0 but whose output does not decode as a
metric payload makes the cycle log an error carrying both the raw output and
the parse failure reason, and terminate the process with a non-zero exit
status; no metric is forwarded. -/
theorem parse_failure_fatal (out e : String) (sf : Nat → Bool)
    (h : decodeMetrics out = .error e) :
    process sf (.exited 0 out) = ([.starting, .done, .parseFailed out e], some 1)
    ∧ (∀ c, (process sf (.exited 0 out)).2 = some c → c ≠ 0)
    ∧ (∀ k v u, Event.sentValue k v u ∉ (process sf (.exited 0 out)).1) := by
  have hp : process sf (.exited 0 out)
      = ([.starting, .done, .parseFailed out e], some 1) := by
    simp [process, h]
  refine ⟨hp, ?_, ?_⟩ <;> simp [hp]

/-- Witness for C5 at the integration test's invalid output. -/
theorem parse_failure_fatal_witness :
    process (fun _ => false) (.exited 0 "invalid")
      = ([.starting, .done,
          .parseFailed "invalid" "unexpected character at start of value"], some 1) :=
  (parse_failure_fatal "invalid" "unexpected character at start of value"
    (fun _ => false) (by rfl)).1

/-- Claim C8: with a decoded payload, a sink error on any forwarding call is
logged (with that metric's key, value and unit) and forwarding still reaches
every metric of the payload; no forwarding failure terminates the process. -/
theorem send_failure_nonfatal (out : String) (ms : List Metric) (sf : Nat → Bool)
    (h : decodeMetrics out = .ok ms) :
    (process sf (.exited 0 out)).2 = none
    ∧ sendCalls (process sf (.exited 0 out)).1 = (ms.map fun m => (m.key, m.value, m.unit))
    ∧ (∀ k (hk : k < ms.length), sf k = true →
        Event.sendFailed (ms.get ⟨k, hk⟩).key (ms.get ⟨k, hk⟩).value (ms.get ⟨k, hk⟩).unit
          ∈ (process sf (.exited 0 out)).1) := by
  have hp : process sf (.exited 0 out) = ([.starting, .done] ++ sendLoop sf 0 ms, none) := by
    simp [process, h]
  refine ⟨by simp [hp], ?_, ?_⟩
  · rw [hp]
    simp [sendCalls, List.filterMap_cons]
    simpa [sendCalls] using sendCalls_sendLoop sf ms 0
  · intro k hk hsf
    rw [hp]
    have := sendLoop_failure_logged sf ms 0 k hk (by simpa using hsf)
    simp only [List.mem_append]
    exact Or.inr this

/-- Witness for C8: both sink calls fail, both failures are logged, the cycle
still makes both calls and does not terminate. -/
theorem send_failure_nonfatal_witness :
    (process (fun _ => true) (.exited 0 "[\x7b\x22key\x22:\x22loadMetric\x22,\x22value\x22:4,\x22unit\x22:\x22Load\x22\x7d,\x7b\x22key\x22:\x22temperatureMetric\x22,\x22value\x22:99,\x22unit\x22:\x22Temperature\x22\x7d]")).2 = none
    ∧ Event.sendFailed "temperatureMetric" (99 : Rat) "Temperature"
        ∈ (process (fun _ => true) (.exited 0 "[\x7b\x22key\x22:\x22loadMetric\x22,\x22value\x22:4,\x22unit\x22:\x22Load\x22\x7d,\x7b\x22key\x22:\x22temperatureMetric\x22,\x22value\x22:99,\x22unit\x22:\x22Temperature\x22\x7d]")).1 := by
  have h := send_failure_nonfatal
    "[\x7b\x22key\x22:\x22loadMetric\x22,\x22value\x22:4,\x22unit\x22:\x22Load\x22\x7d,\x7b\x22key\x22:\x22temperatureMetric\x22,\x22value\x22:99,\x22unit\x22:\x22Temperature\x22\x7d]"
    [⟨"loadMetric", 4, "Load"⟩, ⟨"temperatureMetric", 99, "Temperature"⟩]
    (fun _ => true) (by rfl)
  exact ⟨h.1, h.2.2 1 (by decide) (by rfl)⟩

/-- Counterexample to claim C6: decoding does NOT fail on an array element with
an extra field, nor on one missing `key`/`value`/`unit` — both decode
successfully (the unknown field is ignored, missing fields default to
`""`/`0`/`""`), where the claim requires a decode failure. -/
theorem strict_decode_refuted :
    decodeMetrics "[\x7b\x22key\x22:\x22a\x22,\x22value\x22:1,\x22unit\x22:\x22u\x22,\x22extra\x22:2\x7d]"
      = .ok [⟨"a", 1, "u"⟩]
    ∧ decodeMetrics "[\x7b\x7d]" = .ok [⟨"", 0, ""⟩] :=
  ⟨rfl, rfl⟩

/-- Claim C6 as amended: the decode is lenient at the field level — an object
member whose name is not a (case-insensitive) match for `key`, `value` or
`unit` is skipped without effect, and an element with no members decodes to the
defaulted record `("", 0, "")`; decoding fails only on malformed JSON, a
non-array top level, or a recognised field of the wrong type. -/
theorem lenient_decode_fields :
    (∀ (m : Metric) (name : String) (v : Json) (fs : List (String × Json)),
        fieldOf name = none →
        unmarshalFields m ((name, v) :: fs) = unmarshalFields m fs)
    ∧ unmarshalMetric (Json.obj []) = .ok ⟨"", 0, ""⟩ := by
  refine ⟨?_, rfl⟩
  intro m name v fs h
  have hs : setField m name v = .ok m := by
    unfold setField
    rw [h]
  simp [unmarshalFields, hs]

/-- Witness for the amended C6: the member named `extra` is skipped. -/
theorem lenient_decode_fields_witness :
    unmarshalFields ⟨"", 0, ""⟩ [("extra", Json.num 2 0)]
      = unmarshalFields ⟨"", 0, ""⟩ [] :=
  lenient_decode_fields.1 ⟨"", 0, ""⟩ "extra" (Json.num 2 0) [] (by rfl)

/-- Counterexample to claim C7: an element without a `key` member decodes
successfully to a metric whose key is the empty string — decoding does not
reject it. -/
theorem nonempty_key_refuted :
    ¬ (∀ (ms : List Metric),
        decodeMetrics "[\x7b\x22value\x22:1,\x22unit\x22:\x22u\x22\x7d]" = .ok ms →
        ∀ m ∈ ms, m.key ≠ "") := by
  intro h
  exact h [⟨"", 1, "u"⟩] rfl ⟨"", 1, "u"⟩ (by simp) rfl

/-- Claim C7 as amended: a successful decode can yield a metric whose key is
the empty string (an absent key field is silently defaulted), and the cycle
forwards such a metric as-is, empty key included. -/
theorem empty_key_forwarded :
    decodeMetrics "[\x7b\x22value\x22:1,\x22unit\x22:\x22u\x22\x7d]" = .ok [⟨"", 1, "u"⟩]
    ∧ process (fun _ => false) (.exited 0 "[\x7b\x22value\x22:1,\x22unit\x22:\x22u\x22\x7d]")
        = ([.starting, .done, .sentValue "" 1 "u"], none) :=
  ⟨rfl, rfl⟩

/-- Claim C9: the scheduler runs the first cycle immediately at startup (time
0, before any wait), starts each later cycle exactly one configured interval
after the previous cycle completed (so never earlier, and never overlapping),
and keeps reaching further cycles as long as no cycle has terminated the
process. -/
theorem scheduler_immediate_then_interval (E : SchedEnv) :
    startTime E 0 = 0
    ∧ cycleRuns E 0 = true
    ∧ (∀ i, startTime E (i + 1) = endTime E i + E.interval)
    ∧ (∀ i, endTime E i + E.interval ≤ startTime E (i + 1))
    ∧ (∀ i, endTime E i ≤ startTime E (i + 1))
    ∧ (∀ i, cycleRuns E (i + 1) = (cycleRuns E i && !cycleTerm E i))
    ∧ (∀ i, (∀ j, j < i → cycleTerm E j = false) → cycleRuns E i = true) := by
  refine ⟨rfl, rfl, fun i => rfl, fun i => le_refl _, fun i => ?_, fun i => ?_, fun i h => ?_⟩
  · show startTime E i + E.dur i ≤ startTime E i + E.dur i + E.interval
    omega
  · simp [cycleRuns, List.range_succ]
  · simp only [cycleRuns, List.all_eq_true, List.mem_range]
    intro j hj
    simp [h j hj]

/-- Witness for C9: with a command that keeps signalling not-ready, no cycle
terminates and the loop reaches the fourth cycle. -/
theorem scheduler_immediate_then_interval_witness :
    cycleRuns ⟨60, fun _ => 1, fun _ => .exited 10 "n/a", fun _ _ => false⟩ 3 = true :=
  (scheduler_immediate_then_interval _).2.2.2.2.2.2 3 (fun _ _ => rfl)

/-! ### Stability of the one-value parse under appended trailing bytes

`Decoder.Decode` reads one JSON value and leaves everything after it
unconsumed. The lemmas below show each layer of the parser is unaffected by
bytes appended after the value, whenever the parse's decisions are already
fixed (a nonempty remainder, or a value ending in a consumed delimiter). -/

theorem skipWs_append (cs t : List Char) (c : Char) (r : List Char)
    (h : skipWs cs = c :: r) : skipWs (cs ++ t) = c :: (r ++ t) := by
  induction cs with
  | nil => simp [skipWs] at h
  | cons d cs ih =>
    by_cases hd : isWs d
    · rw [skipWs, if_pos hd] at h
      rw [List.cons_append, skipWs, if_pos hd]
      exact ih h
    · rw [skipWs, if_neg hd] at h
      cases h
      rw [List.cons_append, skipWs, if_neg hd]

theorem takeDigits_append (cs t : List Char) (ds : List Char) (c : Char) (r : List Char)
    (h : takeDigits cs = (ds, c :: r)) : takeDigits (cs ++ t) = (ds, c :: (r ++ t)) := by
  induction cs generalizing ds with
  | nil => simp [takeDigits] at h
  | cons d cs ih =>
    by_cases hd : isDigit d
    · rw [takeDigits] at h
      rw [if_pos hd] at h
      rw [List.cons_append, takeDigits, if_pos hd]
      match h2 : takeDigits cs with
      | (ds1, r1) =>
        rw [h2] at h
        simp only at h
        cases h with
        | refl =>
          rw [ih ds1 h2]
    · rw [takeDigits] at h
      rw [if_neg hd] at h
      cases h
      rw [List.cons_append, takeDigits, if_neg hd]

theorem parseIntPart_append (cs t ds : List Char) (c : Char) (r : List Char)
    (h : parseIntPart cs = .ok (ds, c :: r)) :
    parseIntPart (cs ++ t) = .ok (ds, c :: (r ++ t)) := by
  unfold parseIntPart at h
  split at h
  · injection h with h1
    injection h1 with h2 h3
    subst h2
    rw [h3]
    simp [parseIntPart]
  · rename_i cs1 c0 r0 hne
    split at h
    · rename_i hdig
      match h2 : takeDigits r0 with
      | (ds1, r1) =>
        rw [h2] at h
        simp only at h
        injection h with h1
        injection h1 with h2' h3
        subst h2'
        subst h3
        rw [List.cons_append]
        unfold parseIntPart
        split
        · rename_i heq
          injection heq with e1 e2
          exact absurd e1 (by intro hh; exact hne hh)
        · rename_i x1 cc rr hccne heq
          injection heq with e1 e2
          subst e1
          rw [← e2, if_pos hdig, takeDigits_append r0 t ds1 c r h2]
        · rename_i x1 heq
          exact absurd heq (by simp)
    · exact absurd h (by simp)
  · exact absurd h (by simp)

theorem parseFrac_append (cs t fs : List Char) (c : Char) (r : List Char)
    (h : parseFrac cs = .ok (fs, c :: r)) :
    parseFrac (cs ++ t) = .ok (fs, c :: (r ++ t)) := by
  unfold parseFrac at h
  split at h
  · rename_i r0
    match h2 : takeDigits r0 with
    | (fs1, r1) =>
      rw [h2] at h
      simp only at h
      split at h
      · exact absurd h (by simp)
      · injection h with h1
        injection h1 with h2' h3
        subst h2'
        subst h3
        rename_i hne
        rw [List.cons_append]
        unfold parseFrac
        split
        · rename_i rr heq
          injection heq with e1 e2
          rw [← e2, takeDigits_append r0 t fs1 c r h2]
          simp only
          rw [if_neg hne]
        · rename_i hnegx
          exact (hnegx (r0 ++ t) rfl).elim
  · rename_i x1 hne
    injection h with h1
    injection h1 with h2 h3
    subst h2
    subst h3
    rw [List.cons_append]
    unfold parseFrac
    split
    · rename_i rr heq
      injection heq with e1 e2
      subst e1
      exact (hne r rfl).elim
    · rfl

theorem parseSign_append (cs t : List Char) (sgn : Int) (c : Char) (r : List Char)
    (h : parseSign cs = (sgn, c :: r)) : parseSign (cs ++ t) = (sgn, c :: (r ++ t)) := by
  unfold parseSign at h
  split at h
  · injection h with e1 e2
    subst e1
    subst e2
    simp [parseSign]
  · injection h with e1 e2
    subst e1
    subst e2
    simp [parseSign]
  · rename_i hnp hnm
    injection h with e1 e2
    subst e1
    subst e2
    rw [List.cons_append]
    unfold parseSign
    split
    · rename_i heq
      injection heq with d1 d2
      exact (hnp r (by rw [d1])).elim
    · rename_i heq
      injection heq with d1 d2
      exact (hnm r (by rw [d1])).elim
    · rfl

theorem parseExp_append (cs t : List Char) (ex : Int) (c : Char) (r : List Char)
    (h : parseExp cs = .ok (ex, c :: r)) :
    parseExp (cs ++ t) = .ok (ex, c :: (r ++ t)) := by
  unfold parseExp at h
  split at h
  all_goals try (
    rename_i r0
    rw [List.cons_append]
    unfold parseExp)
  · -- the branch opened by a lowercase e
    replace h : (match parseSign r0 with
          | (sgn, r1) =>
            match takeDigits r1 with
            | (es, r2) =>
              if es.isEmpty = true then Except.error "invalid character in exponent"
              else Except.ok (sgn * (digitsToNat es : Int), r2))
        = Except.ok (ex, c :: r) := h
    match hsign : parseSign r0 with
    | (sgn, r1) =>
      rw [hsign] at h
      simp only at h
      rcases r1 with _ | ⟨c1, rr1⟩
      · simp [takeDigits] at h
      · match h2 : takeDigits (c1 :: rr1) with
        | (es, r2) =>
          rw [h2] at h
          simp only at h
          split at h
          · exact absurd h (by simp)
          · rename_i hne
            injection h with h1
            injection h1 with he hr
            subst he
            subst hr
            show (match parseSign (r0 ++ t) with
                  | (sgn, r1) =>
                    match takeDigits r1 with
                    | (es, r2) =>
                      if es.isEmpty = true then Except.error "invalid character in exponent"
                      else Except.ok (sgn * (digitsToNat es : Int), r2))
                = Except.ok (sgn * (digitsToNat es : Int), c :: (r ++ t))
            rw [parseSign_append r0 t sgn c1 rr1 hsign]
            simp only
            rw [show c1 :: (rr1 ++ t) = (c1 :: rr1) ++ t from rfl,
                takeDigits_append (c1 :: rr1) t es c r h2]
            simp only
            rw [if_neg hne]
  · -- the branch opened by an uppercase E
    replace h : (match parseSign r0 with
          | (sgn, r1) =>
            match takeDigits r1 with
            | (es, r2) =>
              if es.isEmpty = true then Except.error "invalid character in exponent"
              else Except.ok (sgn * (digitsToNat es : Int), r2))
        = Except.ok (ex, c :: r) := h
    match hsign : parseSign r0 with
    | (sgn, r1) =>
      rw [hsign] at h
      simp only at h
      rcases r1 with _ | ⟨c1, rr1⟩
      · simp [takeDigits] at h
      · match h2 : takeDigits (c1 :: rr1) with
        | (es, r2) =>
          rw [h2] at h
          simp only at h
          split at h
          · exact absurd h (by simp)
          · rename_i hne
            injection h with h1
            injection h1 with he hr
            subst he
            subst hr
            show (match parseSign (r0 ++ t) with
                  | (sgn, r1) =>
                    match takeDigits r1 with
                    | (es, r2) =>
                      if es.isEmpty = true then Except.error "invalid character in exponent"
                      else Except.ok (sgn * (digitsToNat es : Int), r2))
                = Except.ok (sgn * (digitsToNat es : Int), c :: (r ++ t))
            rw [parseSign_append r0 t sgn c1 rr1 hsign]
            simp only
            rw [show c1 :: (rr1 ++ t) = (c1 :: rr1) ++ t from rfl,
                takeDigits_append (c1 :: rr1) t es c r h2]
            simp only
            rw [if_neg hne]
  · -- no exponent at all
    rename_i hne hnE
    injection h with h1
    injection h1 with he hr
    subst he
    subst hr
    rw [List.cons_append]
    unfold parseExp
    split
    · rename_i heq
      injection heq with e1 e2
      exact (hne r (by rw [e1])).elim
    · rename_i heq
      injection heq with e1 e2
      exact (hnE r (by rw [e1])).elim
    · rfl

theorem parseNeg_append (cs t : List Char) (neg : Bool) (c : Char) (r : List Char)
    (h : parseNeg cs = (neg, c :: r)) : parseNeg (cs ++ t) = (neg, c :: (r ++ t)) := by
  unfold parseNeg at h
  split at h
  · injection h with e1 e2
    subst e1
    subst e2
    simp [parseNeg]
  · rename_i hnm
    injection h with e1 e2
    subst e1
    subst e2
    rw [List.cons_append]
    unfold parseNeg
    split
    · rename_i heq
      injection heq with d1 d2
      exact (hnm r (by rw [d1])).elim
    · rfl

theorem parseNum_append (cs t : List Char) (nm : Int × Int) (c : Char) (r : List Char)
    (h : parseNum cs = .ok (nm, c :: r)) :
    parseNum (cs ++ t) = .ok (nm, c :: (r ++ t)) := by
  unfold parseNum at h
  match hneg : parseNeg cs with
  | (neg, cs1) =>
    rw [hneg] at h
    simp only at h
    rcases cs1 with _ | ⟨c1, rr1⟩
    · simp [parseIntPart] at h
    · match hip : parseIntPart (c1 :: rr1) with
      | .error e =>
        rw [hip] at h
        simp at h
      | .ok (ds, cs2) =>
        rw [hip] at h
        simp only at h
        rcases cs2 with _ | ⟨c2, rr2⟩
        · simp [parseFrac, parseExp] at h
        · match hf : parseFrac (c2 :: rr2) with
          | .error e =>
            rw [hf] at h
            simp at h
          | .ok (fs, cs3) =>
            rw [hf] at h
            simp only at h
            rcases cs3 with _ | ⟨c3, rr3⟩
            · simp [parseExp] at h
            · match he : parseExp (c3 :: rr3) with
              | .error e =>
                rw [he] at h
                simp at h
              | .ok (ex, cs4) =>
                rw [he] at h
                simp only at h
                injection h with h1
                injection h1 with hnm hr4
                subst hnm
                subst hr4
                unfold parseNum
                rw [parseNeg_append cs t neg c1 rr1 hneg]
                simp only
                rw [show c1 :: (rr1 ++ t) = (c1 :: rr1) ++ t from rfl,
                    parseIntPart_append (c1 :: rr1) t ds c2 rr2 hip]
                simp only
                rw [show c2 :: (rr2 ++ t) = (c2 :: rr2) ++ t from rfl,
                    parseFrac_append (c2 :: rr2) t fs c3 rr3 hf]
                simp only
                rw [show c3 :: (rr3 ++ t) = (c3 :: rr3) ++ t from rfl,
                    parseExp_append (c3 :: rr3) t ex c r he]

theorem parseStrAux_nil_not_ok (fuel : Nat) (acc : List Char) (s : String) (r : List Char) :
    parseStrAux fuel acc [] ≠ .ok (s, r) := by
  cases fuel <;> simp [parseStrAux]

theorem parseStrAux_bs_nil_not_ok (fuel : Nat) (acc : List Char) (s : String) (r : List Char) :
    parseStrAux fuel acc ['\\'] ≠ .ok (s, r) := by
  cases fuel with
  | zero => simp [parseStrAux]
  | succ f =>
    intro hp
    replace hp : parseStrAux f ('\\' :: acc) [] = .ok (s, r) := hp
    exact parseStrAux_nil_not_ok f _ s r hp

theorem parseStrAux_bu_short_not_ok (fuel : Nat) (acc zs : List Char) (hlen : zs.length < 4)
    (s : String) (r : List Char) :
    parseStrAux fuel acc ('\\' :: 'u' :: zs) ≠ .ok (s, r) := by
  cases fuel with
  | zero => simp [parseStrAux]
  | succ f =>
    rcases zs with _ | ⟨a, _ | ⟨b, _ | ⟨c3, _ | ⟨d, rest⟩⟩⟩⟩
    · intro hp
      replace hp : (Except.error "invalid escape in string"
          : Except String (String × List Char)) = .ok (s, r) := hp
      exact absurd hp (by simp)
    · intro hp
      replace hp : (Except.error "invalid escape in string"
          : Except String (String × List Char)) = .ok (s, r) := hp
      exact absurd hp (by simp)
    · intro hp
      replace hp : (Except.error "invalid escape in string"
          : Except String (String × List Char)) = .ok (s, r) := hp
      exact absurd hp (by simp)
    · intro hp
      replace hp : (Except.error "invalid escape in string"
          : Except String (String × List Char)) = .ok (s, r) := hp
      exact absurd hp (by simp)
    · simp only [List.length_cons] at hlen
      omega

/-- Unfolding of `parseStrAux` at a `\uXXXX` escape. -/
theorem parseStrAux_u (f : Nat) (acc : List Char) (a b c d : Char) (rest : List Char) :
    parseStrAux (f + 1) acc ('\\' :: 'u' :: a :: b :: c :: d :: rest)
    = (match hex4 a b c d with
       | none => .error "invalid unicode escape in string"
       | some n =>
         if isSurrogate n then
           match rest with
           | '\\' :: 'u' :: e :: f1 :: g :: h :: rest2 =>
             (match hex4 e f1 g h with
              | some n2 =>
                if isHighSurrogate n && isLowSurrogate n2 then
                  parseStrAux f (combineSurrogates n n2 :: acc) rest2
                else
                  parseStrAux f (replacementChar :: acc)
                    ('\\' :: 'u' :: e :: f1 :: g :: h :: rest2)
              | none =>
                parseStrAux f (replacementChar :: acc)
                  ('\\' :: 'u' :: e :: f1 :: g :: h :: rest2))
           | other => parseStrAux f (replacementChar :: acc) other
         else
           parseStrAux f (Char.ofNat n :: acc) rest) := rfl

/-- Unfolding of `parseStrAux` at an escape other than `\u`. -/
theorem parseStrAux_esc (f : Nat) (acc : List Char) (e : Char) (rest : List Char)
    (he : e ≠ 'u') :
    parseStrAux (f + 1) acc ('\\' :: e :: rest)
    = (match unescape e with
       | some ch => parseStrAux f (ch :: acc) rest
       | none => .error "invalid escape in string") := by
  conv_lhs => unfold parseStrAux
  split
  · rename_i heq
    injection heq with d1 d2
    exact absurd d1 (by decide)
  · rename_i a b c d rest1 heq
    injection heq with d1 d2
    injection d2 with d3 d4
    exact absurd d3 (fun hh => he hh)
  · rename_i e1 rest1 heq
    injection heq with d1 d2
    injection d2 with d3 d4
    subst d3
    subst d4
    rfl
  · rename_i hn1 hn2 hn3 heq
    injection heq with d1 d2
    exact (hn3 e rest d1.symm d2.symm).elim
  · rename_i heq
    exact absurd heq (by simp)

/-- Unfolding of `parseStrAux` at a plain (unescaped) character. -/
theorem parseStrAux_plain (f : Nat) (acc : List Char) (c0 : Char) (rest : List Char)
    (h1 : c0 ≠ '"') (h2 : c0 ≠ '\\') :
    parseStrAux (f + 1) acc (c0 :: rest)
    = (if c0.toNat < 32 then .error "control character in string"
       else parseStrAux f (c0 :: acc) rest) := by
  conv_lhs => unfold parseStrAux
  split
  · rename_i heq
    injection heq with d1 d2
    exact absurd d1 (fun hh => h1 hh)
  · rename_i a b c d rest1 heq
    injection heq with d1 d2
    exact absurd d1 (fun hh => h2 hh)
  · rename_i e1 rest1 heq
    injection heq with d1 d2
    exact absurd d1 (fun hh => h2 hh)
  · rename_i hn1 hn2 hn3 heq
    injection heq with d1 d2
    subst d1
    subst d2
    rfl
  · rename_i heq
    exact absurd heq (by simp)

/-- A successful string-body parse is unaffected by bytes appended after the
(already consumed) closing quote, for any sufficient fuel. -/
theorem parseStrAux_append (fuel : Nat) :
    ∀ (fuel' : Nat) (acc cs t : List Char) (s : String) (r : List Char),
      fuel ≤ fuel' → parseStrAux fuel acc cs = .ok (s, r) →
      parseStrAux fuel' acc (cs ++ t) = .ok (s, r ++ t) := by
  induction fuel with
  | zero =>
    intro fuel' acc cs t s r hle hp
    simp [parseStrAux] at hp
  | succ f ih =>
    intro fuel' acc cs t s r hle hp
    obtain ⟨f', rfl⟩ : ∃ f', fuel' = f' + 1 := ⟨fuel' - 1, by omega⟩
    have hle2 : f ≤ f' := by omega
    unfold parseStrAux at hp
    split at hp
    · -- closing quote
      injection hp with h1
      injection h1 with hs hr
      subst hs
      subst hr
      rw [List.cons_append]
      rfl
    · -- unicode escape
      rename_i a b c d rest
      split at hp
      · exact absurd hp (by simp)
      · rename_i n hh
        split at hp
        · -- surrogate
          rename_i hsur
          split at hp
          · -- a paired second escape follows
            rename_i e1 f1 g1 h1 rest2
            split at hp
            · rename_i n2 hh2
              split at hp
              · -- a valid high/low pair
                rename_i hguard
                simp only [List.cons_append]
                rw [parseStrAux_u, hh]
                simp only
                rw [if_pos hsur]
                show (match hex4 e1 f1 g1 h1 with
                      | some n2 =>
                        if isHighSurrogate n && isLowSurrogate n2 then
                          parseStrAux f' (combineSurrogates n n2 :: acc) (rest2 ++ t)
                        else
                          parseStrAux f' (replacementChar :: acc)
                            ('\\' :: 'u' :: e1 :: f1 :: g1 :: h1 :: (rest2 ++ t))
                      | none =>
                        parseStrAux f' (replacementChar :: acc)
                          ('\\' :: 'u' :: e1 :: f1 :: g1 :: h1 :: (rest2 ++ t)))
                    = Except.ok (s, r ++ t)
                rw [hh2]
                simp only
                rw [if_pos hguard]
                exact ih f' _ rest2 t s r hle2 hp
              · -- not a valid pair: replacement character, reprocess
                rename_i hguard
                simp only [List.cons_append]
                rw [parseStrAux_u, hh]
                simp only
                rw [if_pos hsur]
                show (match hex4 e1 f1 g1 h1 with
                      | some n2 =>
                        if isHighSurrogate n && isLowSurrogate n2 then
                          parseStrAux f' (combineSurrogates n n2 :: acc) (rest2 ++ t)
                        else
                          parseStrAux f' (replacementChar :: acc)
                            ('\\' :: 'u' :: e1 :: f1 :: g1 :: h1 :: (rest2 ++ t))
                      | none =>
                        parseStrAux f' (replacementChar :: acc)
                          ('\\' :: 'u' :: e1 :: f1 :: g1 :: h1 :: (rest2 ++ t)))
                    = Except.ok (s, r ++ t)
                rw [hh2]
                simp only
                rw [if_neg hguard]
                have := ih f' (replacementChar :: acc)
                  ('\\' :: 'u' :: e1 :: f1 :: g1 :: h1 :: rest2) t s r hle2 hp
                simpa using this
            · rename_i hh2
              simp only [List.cons_append]
              rw [parseStrAux_u, hh]
              simp only
              rw [if_pos hsur]
              show (match hex4 e1 f1 g1 h1 with
                    | some n2 =>
                      if isHighSurrogate n && isLowSurrogate n2 then
                        parseStrAux f' (combineSurrogates n n2 :: acc) (rest2 ++ t)
                      else
                        parseStrAux f' (replacementChar :: acc)
                          ('\\' :: 'u' :: e1 :: f1 :: g1 :: h1 :: (rest2 ++ t))
                    | none =>
                      parseStrAux f' (replacementChar :: acc)
                        ('\\' :: 'u' :: e1 :: f1 :: g1 :: h1 :: (rest2 ++ t)))
                  = Except.ok (s, r ++ t)
              rw [hh2]
              simp only
              have := ih f' (replacementChar :: acc)
                ('\\' :: 'u' :: e1 :: f1 :: g1 :: h1 :: rest2) t s r hle2 hp
              simpa using this
          · -- no second escape shape follows
            rename_i hnegpair
            simp only [List.cons_append]
            rw [parseStrAux_u, hh]
            simp only
            rw [if_pos hsur]
            rcases rest with _ | ⟨o1, rest1⟩
            · exact absurd hp (parseStrAux_nil_not_ok f _ s r)
            · rcases rest1 with _ | ⟨o2, rest2m⟩
              · by_cases ho1 : o1 = '\\'
                · subst ho1
                  exact absurd hp (parseStrAux_bs_nil_not_ok f _ s r)
                · split
                  · rename_i heq
                    injection heq with d1 d2
                    exact absurd d1 (fun hh2 => ho1 hh2)
                  · have := ih f' (replacementChar :: acc) [o1] t s r hle2 hp
                    simpa using this
              · by_cases hb : o1 = '\\' ∧ o2 = 'u'
                · obtain ⟨rfl, rfl⟩ := hb
                  rcases rest2m with _ | ⟨z1, _ | ⟨z2, _ | ⟨z3, _ | ⟨z4, zs⟩⟩⟩⟩
                  · exact absurd hp (parseStrAux_bu_short_not_ok f _ _ (by simp) s r)
                  · exact absurd hp (parseStrAux_bu_short_not_ok f _ _ (by simp) s r)
                  · exact absurd hp (parseStrAux_bu_short_not_ok f _ _ (by simp) s r)
                  · exact absurd hp (parseStrAux_bu_short_not_ok f _ _ (by simp) s r)
                  · exact (hnegpair z1 z2 z3 z4 zs rfl).elim
                · split
                  · rename_i heq
                    injection heq with d1 d2
                    injection d2 with d3 d4
                    exact (hb ⟨d1, d3⟩).elim
                  · have := ih f' (replacementChar :: acc) (o1 :: o2 :: rest2m) t s r hle2 hp
                    simpa using this
        · -- not a surrogate
          rename_i hsur
          simp only [List.cons_append]
          rw [parseStrAux_u, hh]
          simp only
          rw [if_neg hsur]
          exact ih f' _ rest t s r hle2 hp
    · -- simple escape
      rename_i cs1 e rest hneg2
      split at hp
      · -- a recognised escape character
        rename_i ch hu
        have he : e ≠ 'u' := by
          intro hhe
          subst hhe
          simp [unescape] at hu
        simp only [List.cons_append]
        rw [parseStrAux_esc f' acc e (rest ++ t) he, hu]
        exact ih f' _ rest t s r hle2 hp
      · exact absurd hp (by simp)
    · -- plain character
      rename_i cs1 c0 rest hn1 hn2 hn3
      split at hp
      · exact absurd hp (by simp)
      · rename_i hcc
        rcases rest with _ | ⟨r1, rest1⟩
        · exact absurd hp (parseStrAux_nil_not_ok f _ s r)
        · have hc0q : c0 ≠ '"' := by
            intro hh2
            exact hn1 hh2
          have hc0b : c0 ≠ '\\' := by
            intro hh2
            exact hn3 r1 rest1 hh2 rfl
          simp only [List.cons_append]
          rw [parseStrAux_plain f' acc c0 _ hc0q hc0b, if_neg hcc]
          exact ih f' _ (r1 :: rest1) t s r hle2 hp
    · -- end of input
      exact absurd hp (by simp)

theorem parseValCore_nil_not_ok (fuel : Nat) (v : Json) (r : List Char) :
    parseValCore fuel [] ≠ .ok (v, r) := by
  cases fuel <;> simp [parseValCore]

theorem parseElems_nil_not_ok (fuel : Nat) (es : List Json) (r : List Char) :
    parseElems fuel [] ≠ .ok (es, r) := by
  cases fuel with
  | zero => simp [parseElems]
  | succ f =>
    intro hp
    replace hp : (match parseValCore f [] with
        | .error e => .error e
        | .ok (v, r) =>
          match skipWs r with
          | ',' :: r1 =>
            (match parseElems f r1 with
             | .error e => .error e
             | .ok (vs, r2) => .ok (v :: vs, r2))
          | ']' :: r1 => .ok ([v], r1)
          | _ => .error "expected comma or closing bracket after array element")
        = Except.ok (es, r) := hp
    rcases hv : parseValCore f [] with e | ⟨v, r0⟩
    · rw [hv] at hp
      simp at hp
    · exact parseValCore_nil_not_ok f v r0 hv

theorem parseMembers_nil_not_ok (fuel : Nat) (ms : List (String × Json)) (r : List Char) :
    parseMembers fuel [] ≠ .ok (ms, r) := by
  cases fuel with
  | zero => simp [parseMembers]
  | succ f =>
    intro hp
    replace hp : (Except.error "expected string key in object"
        : Except String (List (String × Json) × List Char)) = .ok (ms, r) := hp
    exact absurd hp (by simp)

/-- A digit opens none of the keyword, string, array or object forms. -/
theorem digit_ne (c : Char) (hd : isDigit c = true) :
    c ≠ 'n' ∧ c ≠ 't' ∧ c ≠ 'f' ∧ c ≠ '"' ∧ c ≠ '[' ∧ c ≠ '\x7b' := by
  have h1 : 48 ≤ c.toNat ∧ c.toNat ≤ 57 := by
    simpa [isDigit, Bool.and_eq_true] using hd
  refine ⟨?_, ?_, ?_, ?_, ?_, ?_⟩ <;> intro h <;> subst h <;> exact absurd h1 (by decide)

/-- Unfolding of `parseValCore` at an opening quote. -/
theorem parseValCore_quote (f : Nat) (r1 : List Char) :
    parseValCore (f + 1) ('"' :: r1)
    = (match parseStrAux (r1.length + 1) [] r1 with
       | .error e => .error e
       | .ok (s, rr) => .ok (.str s, rr)) := rfl

/-- Unfolding of `parseValCore` at an opening bracket. -/
theorem parseValCore_arr (f : Nat) (r1 : List Char) :
    parseValCore (f + 1) ('[' :: r1)
    = (match skipWs r1 with
       | ']' :: r2 => .ok (.arr [], r2)
       | r2 =>
         match parseElems f r2 with
         | .error e => .error e
         | .ok (es, r3) => .ok (.arr es, r3)) := rfl

/-- Unfolding of `parseValCore` at an opening brace. -/
theorem parseValCore_obj (f : Nat) (r1 : List Char) :
    parseValCore (f + 1) ('\x7b' :: r1)
    = (match skipWs r1 with
       | '\x7d' :: r2 => .ok (.obj [], r2)
       | r2 =>
         match parseMembers f r2 with
         | .error e => .error e
         | .ok (ms, r3) => .ok (.obj ms, r3)) := rfl

/-- Unfolding of `parseValCore` at a character opening none of the structured
forms. -/
theorem parseValCore_default (f : Nat) (c : Char) (rest : List Char)
    (h1 : c ≠ 'n') (h2 : c ≠ 't') (h3 : c ≠ 'f') (h4 : c ≠ '"') (h5 : c ≠ '[')
    (h6 : c ≠ '\x7b') :
    parseValCore (f + 1) (c :: rest)
    = (if c = '-' || isDigit c then
         match parseNum (c :: rest) with
         | .error e => .error e
         | .ok ((m, ex), r1) => .ok (.num m ex, r1)
       else .error "unexpected character at start of value") := by
  conv_lhs => unfold parseValCore
  split
  · rename_i heq
    injection heq with d1 d2
    exact absurd d1 (fun hh => h1 hh)
  · rename_i heq
    injection heq with d1 d2
    exact absurd d1 (fun hh => h2 hh)
  · rename_i heq
    injection heq with d1 d2
    exact absurd d1 (fun hh => h3 hh)
  · rename_i heq
    injection heq with d1 d2
    exact absurd d1 (fun hh => h4 hh)
  · rename_i heq
    injection heq with d1 d2
    exact absurd d1 (fun hh => h5 hh)
  · rename_i heq
    injection heq with d1 d2
    exact absurd d1 (fun hh => h6 hh)
  · rename_i heq
    injection heq with d1 d2
    subst d1
    subst d2
    rfl
  · rename_i heq
    exact absurd heq (by simp)
mutual

theorem parseValCore_append :
    ∀ (fuel fuel' : Nat) (cs t : List Char) (v : Json) (r : List Char),
      fuel ≤ fuel' → parseValCore fuel cs = .ok (v, r) → (r ≠ [] ∨ v.isNum = false) →
      parseValCore fuel' (cs ++ t) = .ok (v, r ++ t)
  | 0, fuel', cs, t, v, r => by
    intro hle hp hside
    simp [parseValCore] at hp
  | fuel + 1, fuel', cs, t, v, r => by
    intro hle hp hside
    obtain ⟨f', rfl⟩ : ∃ f', fuel' = f' + 1 := ⟨fuel' - 1, by omega⟩
    have hle2 : fuel ≤ f' := by omega
    unfold parseValCore at hp
    split at hp
    · -- null
      injection hp with h1
      injection h1 with hv hr
      subst hv
      subst hr
      simp only [List.cons_append]
      rfl
    · -- true
      injection hp with h1
      injection h1 with hv hr
      subst hv
      subst hr
      simp only [List.cons_append]
      rfl
    · -- false
      injection hp with h1
      injection h1 with hv hr
      subst hv
      subst hr
      simp only [List.cons_append]
      rfl
    · -- string
      rename_i r1
      split at hp
      · exact absurd hp (by simp)
      · rename_i sres rr hs
        injection hp with h1
        injection h1 with hv hr
        subst hv
        subst hr
        simp only [List.cons_append]
        rw [parseValCore_quote f' (r1 ++ t)]
        have hfa : r1.length + 1 ≤ (r1 ++ t).length + 1 := by
          simp [List.length_append]
        rw [parseStrAux_append (r1.length + 1) ((r1 ++ t).length + 1) [] r1 t sres rr hfa hs]
    · -- array
      rename_i r1
      split at hp
      · -- empty array
        rename_i r2 hskip
        injection hp with h1
        injection h1 with hv hr
        subst hv
        subst hr
        simp only [List.cons_append]
        rw [parseValCore_arr f' (r1 ++ t), skipWs_append r1 t ']' r2 hskip]
        rfl
      · -- nonempty array
        rename_i hnb
        split at hp
        · exact absurd hp (by simp)
        · rename_i es r3 he
          injection hp with h1
          injection h1 with hv hr
          subst hv
          subst hr
          rcases hskip : skipWs r1 with _ | ⟨c2, rr2⟩
          · rw [hskip] at he
            exact absurd he (parseElems_nil_not_ok fuel es r3)
          · rw [hskip] at he
            have hrec := parseElems_append fuel f' (c2 :: rr2) t es r3 hle2 he
            simp only [List.cons_append]
            rw [parseValCore_arr f' (r1 ++ t), skipWs_append r1 t c2 rr2 hskip]
            split
            · rename_i heq
              injection heq with d1 d2
              exact (hnb rr2 (by rw [hskip, d1])).elim
            · rw [show c2 :: (rr2 ++ t) = (c2 :: rr2) ++ t from rfl, hrec]
    · -- object
      rename_i r1
      split at hp
      · -- empty object
        rename_i r2 hskip
        injection hp with h1
        injection h1 with hv hr
        subst hv
        subst hr
        simp only [List.cons_append]
        rw [parseValCore_obj f' (r1 ++ t), skipWs_append r1 t '\x7d' r2 hskip]
        rfl
      · -- nonempty object
        rename_i hnb
        split at hp
        · exact absurd hp (by simp)
        · rename_i ms r3 hm
          injection hp with h1
          injection h1 with hv hr
          subst hv
          subst hr
          rcases hskip : skipWs r1 with _ | ⟨c2, rr2⟩
          · rw [hskip] at hm
            exact absurd hm (parseMembers_nil_not_ok fuel ms r3)
          · rw [hskip] at hm
            have hrec := parseMembers_append fuel f' (c2 :: rr2) t ms r3 hle2 hm
            simp only [List.cons_append]
            rw [parseValCore_obj f' (r1 ++ t), skipWs_append r1 t c2 rr2 hskip]
            split
            · rename_i heq
              injection heq with d1 d2
              exact (hnb rr2 (by rw [hskip, d1])).elim
            · rw [show c2 :: (rr2 ++ t) = (c2 :: rr2) ++ t from rfl, hrec]
    · -- number or error
      rename_i cs1 c0 rest hn1 hn2 hn3 hn4 hn5 hn6
      split at hp
      · rename_i hc
        split at hp
        · exact absurd hp (by simp)
        · rename_i m ex r1 hnum
          injection hp with h1
          injection h1 with hv hr
          subst hv
          subst hr
          have hr1 : r1 ≠ [] := by
            rcases hside with hne | hfalse
            · exact hne
            · simp [Json.isNum] at hfalse
          rcases hr1x : r1 with _ | ⟨c2, rr2⟩
          · exact absurd hr1x hr1
          · subst hr1x
            have hfacts : c0 ≠ 'n' ∧ c0 ≠ 't' ∧ c0 ≠ 'f' ∧ c0 ≠ '"' ∧ c0 ≠ '[' ∧
                c0 ≠ '\x7b' := by
              by_cases hdig : isDigit c0 = true
              · exact digit_ne c0 hdig
              · have hcm : c0 = '-' := by
                  simp [hdig] at hc
                  exact hc
                subst hcm
                exact ⟨by decide, by decide, by decide, by decide, by decide, by decide⟩
            obtain ⟨g1, g2, g3, g4, g5, g6⟩ := hfacts
            simp only [List.cons_append]
            rw [parseValCore_default f' c0 (rest ++ t) g1 g2 g3 g4 g5 g6, if_pos hc]
            rw [show c0 :: (rest ++ t) = (c0 :: rest) ++ t from rfl,
                parseNum_append (c0 :: rest) t (m, ex) c2 rr2 hnum]
      · exact absurd hp (by simp)
    · -- end of input
      exact absurd hp (by simp)

theorem parseElems_append :
    ∀ (fuel fuel' : Nat) (cs t : List Char) (es : List Json) (r : List Char),
      fuel ≤ fuel' → parseElems fuel cs = .ok (es, r) →
      parseElems fuel' (cs ++ t) = .ok (es, r ++ t)
  | 0, fuel', cs, t, es, r => by
    intro hle hp
    simp [parseElems] at hp
  | fuel + 1, fuel', cs, t, es, r => by
    intro hle hp
    obtain ⟨f', rfl⟩ : ∃ f', fuel' = f' + 1 := ⟨fuel' - 1, by omega⟩
    have hle2 : fuel ≤ f' := by omega
    unfold parseElems at hp
    split at hp
    · exact absurd hp (by simp)
    · rename_i v r0 hv
      split at hp
      · -- a comma follows the element
        rename_i r1 hs1
        split at hp
        · exact absurd hp (by simp)
        · rename_i es0 r2 he
          injection hp with h1
          injection h1 with hes hr
          subst hes
          subst hr
          rcases hsc : skipWs cs with _ | ⟨c0, cc0⟩
          · rw [hsc] at hv
            exact absurd hv (parseValCore_nil_not_ok fuel v r0)
          · rw [hsc] at hv
            have hvc := parseValCore_append fuel f' (c0 :: cc0) t v r0 hle2 hv
              (Or.inl (by intro hr0; rw [hr0] at hs1; simp [skipWs] at hs1))
            have hrec := parseElems_append fuel f' r1 t es0 r2 hle2 he
            unfold parseElems
            rw [skipWs_append cs t c0 cc0 hsc,
                show c0 :: (cc0 ++ t) = (c0 :: cc0) ++ t from rfl, hvc]
            show (match skipWs (r0 ++ t) with
                  | ',' :: r1 =>
                    (match parseElems f' r1 with
                     | .error e => .error e
                     | .ok (vs, r2) => .ok (v :: vs, r2))
                  | ']' :: r1 => .ok ([v], r1)
                  | _ => .error "expected comma or closing bracket after array element")
                = Except.ok (v :: es0, r2 ++ t)
            rw [skipWs_append r0 t ',' r1 hs1]
            show (match parseElems f' (r1 ++ t) with
                  | .error e => .error e
                  | .ok (vs, r2) => .ok (v :: vs, r2)) = Except.ok (v :: es0, r2 ++ t)
            rw [hrec]
      · -- the closing bracket follows the element
        rename_i r1 hs1
        injection hp with h1
        injection h1 with hes hr
        subst hes
        subst hr
        rcases hsc : skipWs cs with _ | ⟨c0, cc0⟩
        · rw [hsc] at hv
          exact absurd hv (parseValCore_nil_not_ok fuel v r0)
        · rw [hsc] at hv
          have hvc := parseValCore_append fuel f' (c0 :: cc0) t v r0 hle2 hv
            (Or.inl (by intro hr0; rw [hr0] at hs1; simp [skipWs] at hs1))
          unfold parseElems
          rw [skipWs_append cs t c0 cc0 hsc,
              show c0 :: (cc0 ++ t) = (c0 :: cc0) ++ t from rfl, hvc]
          show (match skipWs (r0 ++ t) with
                | ',' :: r1 =>
                  (match parseElems f' r1 with
                   | .error e => .error e
                   | .ok (vs, r2) => .ok (v :: vs, r2))
                | ']' :: r1 => .ok ([v], r1)
                | _ => .error "expected comma or closing bracket after array element")
              = Except.ok ([v], r1 ++ t)
          rw [skipWs_append r0 t ']' r1 hs1]
          rfl
      · exact absurd hp (by simp)

theorem parseMembers_append :
    ∀ (fuel fuel' : Nat) (cs t : List Char) (mems : List (String × Json))
      (rem : List Char),
      fuel ≤ fuel' → parseMembers fuel cs = .ok (mems, rem) →
      parseMembers fuel' (cs ++ t) = .ok (mems, rem ++ t)
  | 0, fuel', cs, t, mems, rem => by
    intro hle hp
    simp [parseMembers] at hp
  | fuel + 1, fuel', cs, t, mems, rem => by
    intro hle hp
    obtain ⟨f', rfl⟩ : ∃ f', fuel' = f' + 1 := ⟨fuel' - 1, by omega⟩
    have hle2 : fuel ≤ f' := by omega
    unfold parseMembers at hp
    split at hp
    · -- a string key opens the member
      rename_i rq hskq
      split at hp
      · exact absurd hp (by simp)
      · rename_i name r1 hsname
        split at hp
        · -- a colon follows the key
          rename_i r2 hs2
          split at hp
          · exact absurd hp (by simp)
          · rename_i v r3 hv
            split at hp
            · -- a comma follows the value
              rename_i r4 hs4
              split at hp
              · exact absurd hp (by simp)
              · rename_i ms0 r5 hm
                injection hp with h1
                injection h1 with hms hr
                subst hms
                subst hr
                rcases hsc3 : skipWs r2 with _ | ⟨c3, cc3⟩
                · rw [hsc3] at hv
                  exact absurd hv (parseValCore_nil_not_ok fuel v r3)
                · rw [hsc3] at hv
                  have hvc := parseValCore_append fuel f' (c3 :: cc3) t v r3 hle2 hv
                    (Or.inl (by intro h0; rw [h0] at hs4; simp [skipWs] at hs4))
                  have hrec := parseMembers_append fuel f' r4 t ms0 r5 hle2 hm
                  have hsa := parseStrAux_append (rq.length + 1) ((rq ++ t).length + 1)
                    [] rq t name r1 (by simp [List.length_append]) hsname
                  unfold parseMembers
                  rw [skipWs_append cs t '"' rq hskq]
                  show (match parseStrAux ((rq ++ t).length + 1) [] (rq ++ t) with
                        | .error e => .error e
                        | .ok (name, r1) =>
                          match skipWs r1 with
                          | ':' :: r2 =>
                            (match parseValCore f' (skipWs r2) with
                             | .error e => .error e
                             | .ok (v, r3) =>
                               match skipWs r3 with
                               | ',' :: r4 =>
                                 (match parseMembers f' r4 with
                                  | .error e => .error e
                                  | .ok (ms, r5) => .ok ((name, v) :: ms, r5))
                               | '\x7d' :: r4 => .ok ([(name, v)], r4)
                               | _ => .error
                                   "expected comma or closing brace after object member")
                          | _ => .error "expected colon after object key")
                      = Except.ok ((name, v) :: ms0, r5 ++ t)
                  rw [hsa]
                  show (match skipWs (r1 ++ t) with
                        | ':' :: r2 =>
                          (match parseValCore f' (skipWs r2) with
                           | .error e => .error e
                           | .ok (v, r3) =>
                             match skipWs r3 with
                             | ',' :: r4 =>
                               (match parseMembers f' r4 with
                                | .error e => .error e
                                | .ok (ms, r5) => .ok ((name, v) :: ms, r5))
                             | '\x7d' :: r4 => .ok ([(name, v)], r4)
                             | _ => .error
                                 "expected comma or closing brace after object member")
                        | _ => .error "expected colon after object key")
                      = Except.ok ((name, v) :: ms0, r5 ++ t)
                  rw [skipWs_append r1 t ':' r2 hs2]
                  show (match parseValCore f' (skipWs (r2 ++ t)) with
                        | .error e => .error e
                        | .ok (v, r3) =>
                          match skipWs r3 with
                          | ',' :: r4 =>
                            (match parseMembers f' r4 with
                             | .error e => .error e
                             | .ok (ms, r5) => .ok ((name, v) :: ms, r5))
                          | '\x7d' :: r4 => .ok ([(name, v)], r4)
                          | _ => .error
                              "expected comma or closing brace after object member")
                      = Except.ok ((name, v) :: ms0, r5 ++ t)
                  rw [skipWs_append r2 t c3 cc3 hsc3,
                      show c3 :: (cc3 ++ t) = (c3 :: cc3) ++ t from rfl, hvc]
                  show (match skipWs (r3 ++ t) with
                        | ',' :: r4 =>
                          (match parseMembers f' r4 with
                           | .error e => .error e
                           | .ok (ms, r5) => .ok ((name, v) :: ms, r5))
                        | '\x7d' :: r4 => .ok ([(name, v)], r4)
                        | _ => .error "expected comma or closing brace after object member")
                      = Except.ok ((name, v) :: ms0, r5 ++ t)
                  rw [skipWs_append r3 t ',' r4 hs4]
                  show (match parseMembers f' (r4 ++ t) with
                        | .error e => .error e
                        | .ok (ms, r5) => .ok ((name, v) :: ms, r5))
                      = Except.ok ((name, v) :: ms0, r5 ++ t)
                  rw [hrec]
            · -- the closing brace follows the value
              rename_i r4 hs4
              injection hp with h1
              injection h1 with hms hr
              subst hms
              subst hr
              rcases hsc3 : skipWs r2 with _ | ⟨c3, cc3⟩
              · rw [hsc3] at hv
                exact absurd hv (parseValCore_nil_not_ok fuel v r3)
              · rw [hsc3] at hv
                have hvc := parseValCore_append fuel f' (c3 :: cc3) t v r3 hle2 hv
                  (Or.inl (by intro h0; rw [h0] at hs4; simp [skipWs] at hs4))
                have hsa := parseStrAux_append (rq.length + 1) ((rq ++ t).length + 1)
                  [] rq t name r1 (by simp [List.length_append]) hsname
                unfold parseMembers
                rw [skipWs_append cs t '"' rq hskq]
                show (match parseStrAux ((rq ++ t).length + 1) [] (rq ++ t) with
                      | .error e => .error e
                      | .ok (name, r1) =>
                        match skipWs r1 with
                        | ':' :: r2 =>
                          (match parseValCore f' (skipWs r2) with
                           | .error e => .error e
                           | .ok (v, r3) =>
                             match skipWs r3 with
                             | ',' :: r4 =>
                               (match parseMembers f' r4 with
                                | .error e => .error e
                                | .ok (ms, r5) => .ok ((name, v) :: ms, r5))
                             | '\x7d' :: r4 => .ok ([(name, v)], r4)
                             | _ => .error
                                 "expected comma or closing brace after object member")
                        | _ => .error "expected colon after object key")
                    = Except.ok ([(name, v)], r4 ++ t)
                rw [hsa]
                show (match skipWs (r1 ++ t) with
                      | ':' :: r2 =>
                        (match parseValCore f' (skipWs r2) with
                         | .error e => .error e
                         | .ok (v, r3) =>
                           match skipWs r3 with
                           | ',' :: r4 =>
                             (match parseMembers f' r4 with
                              | .error e => .error e
                              | .ok (ms, r5) => .ok ((name, v) :: ms, r5))
                           | '\x7d' :: r4 => .ok ([(name, v)], r4)
                           | _ => .error
                               "expected comma or closing brace after object member")
                      | _ => .error "expected colon after object key")
                    = Except.ok ([(name, v)], r4 ++ t)
                rw [skipWs_append r1 t ':' r2 hs2]
                show (match parseValCore f' (skipWs (r2 ++ t)) with
                      | .error e => .error e
                      | .ok (v, r3) =>
                        match skipWs r3 with
                        | ',' :: r4 =>
                          (match parseMembers f' r4 with
                           | .error e => .error e
                           | .ok (ms, r5) => .ok ((name, v) :: ms, r5))
                        | '\x7d' :: r4 => .ok ([(name, v)], r4)
                        | _ => .error "expected comma or closing brace after object member")
                    = Except.ok ([(name, v)], r4 ++ t)
                rw [skipWs_append r2 t c3 cc3 hsc3,
                    show c3 :: (cc3 ++ t) = (c3 :: cc3) ++ t from rfl, hvc]
                show (match skipWs (r3 ++ t) with
                      | ',' :: r4 =>
                        (match parseMembers f' r4 with
                         | .error e => .error e
                         | .ok (ms, r5) => .ok ((name, v) :: ms, r5))
                      | '\x7d' :: r4 => .ok ([(name, v)], r4)
                      | _ => .error "expected comma or closing brace after object member")
                    = Except.ok ([(name, v)], r4 ++ t)
                rw [skipWs_append r3 t '\x7d' r4 hs4]
                rfl
            · exact absurd hp (by simp)
        · exact absurd hp (by simp)
    · exact absurd hp (by simp)

end

/-- One-value parses are stable under appended trailing bytes whenever the
value's end is already determined (a nonempty remainder, or a value that is
not a numeral and so ends at a consumed delimiter). -/
theorem parseVal_append (fuel fuel' : Nat) (cs t : List Char) (v : Json) (r : List Char)
    (hle : fuel ≤ fuel') (hp : parseVal fuel cs = .ok (v, r))
    (hside : r ≠ [] ∨ v.isNum = false) :
    parseVal fuel' (cs ++ t) = .ok (v, r ++ t) := by
  unfold parseVal at hp ⊢
  rcases hsc : skipWs cs with _ | ⟨c0, cc0⟩
  · rw [hsc] at hp
    exact absurd hp (parseValCore_nil_not_ok fuel v r)
  · rw [hsc] at hp
    rw [skipWs_append cs t c0 cc0 hsc,
        show c0 :: (cc0 ++ t) = (c0 :: cc0) ++ t from rfl]
    exact parseValCore_append fuel fuel' (c0 :: cc0) t v r hle hp hside

/-- Claim C10: the payload decode reads only the first JSON value of the
command output — when a prefix of the output parses exactly as a JSON array
that unmarshals to the metrics `ms`, any bytes appended after that array are
silently ignored and the decode still returns `ms`. -/
theorem trailing_bytes_ignored (s t : String) (v : Json) (ms : List Metric)
    (hp : parseVal (s.length + 1) s.data = .ok (v, []))
    (harr : v.isArr = true)
    (hm : unmarshalMetrics v = .ok ms) :
    decodeMetrics (s ++ t) = .ok ms := by
  have hside : ([] : List Char) ≠ [] ∨ v.isNum = false := by
    right
    cases v <;> simp_all [Json.isArr, Json.isNum]
  have hfuel : s.length + 1 ≤ (s ++ t).length + 1 := by
    simp [String.length_append]
  have hmain := parseVal_append (s.length + 1) ((s ++ t).length + 1) s.data t.data
    v [] hfuel hp hside
  simp only [List.nil_append] at hmain
  unfold decodeMetrics
  rw [show (s ++ t).data = s.data ++ t.data from rfl, hmain]
  exact hm

/-- Witness for C10: the spec's two-metric example array followed by trailing
garbage still decodes to exactly those two metrics. -/
theorem trailing_bytes_ignored_witness :
    decodeMetrics ("[\x7b\x22key\x22:\x22loadMetric\x22,\x22value\x22:4,\x22unit\x22:\x22Load\x22\x7d,\x7b\x22key\x22:\x22temperatureMetric\x22,\x22value\x22:99,\x22unit\x22:\x22Temperature\x22\x7d]" ++ " trailing garbage, not JSON")
      = .ok [⟨"loadMetric", 4, "Load"⟩, ⟨"temperatureMetric", 99, "Temperature"⟩] :=
  trailing_bytes_ignored
    "[\x7b\x22key\x22:\x22loadMetric\x22,\x22value\x22:4,\x22unit\x22:\x22Load\x22\x7d,\x7b\x22key\x22:\x22temperatureMetric\x22,\x22value\x22:99,\x22unit\x22:\x22Temperature\x22\x7d]"
    " trailing garbage, not JSON" _ _ (by rfl) (by rfl) (by rfl)
